import Mathlib

/-!
Shallow embedding of the shuttle reconciliation and backfill engine:
`usernameProofReconciliation.ts` and the backfill / event-handling parts of
`example-app/app.ts`. External collaborators (the Hub RPC client, the
relational store, the task queue) are modelled as explicit inputs and as
trace events; fallible calls are modelled with an explicit result type
mirroring the neverthrow `Result` used by the source (error payloads are
collapsed to a unit, which the claims never inspect).
-/

namespace Shuttle

/-- Mirrors neverthrow `Result`, with the error payload collapsed. -/
inductive NResult (α : Type) where
  | ok (value : α)
  | err
deriving DecidableEq, Repr

/-- UserNameType.USERNAME_TYPE_FNAME from the protobuf enum. -/
def USERNAME_TYPE_FNAME : Nat := 1

/-- UserNameType.USERNAME_TYPE_ENS_L1 from the protobuf enum. -/
def USERNAME_TYPE_ENS_L1 : Nat := 2

/-- A `UserNameProof` message: byte strings are lists of bytes, `timestamp`
is in unix seconds as on the wire. -/
structure UserNameProof where
  name : List Nat
  fid : Nat
  owner : List Nat
  type : Nat
  timestamp : Nat
  signature : List Nat
deriving DecidableEq, Repr

/-- A row of the `usernames` table as selected by `getProofsFromDb`:
`username`, `fid`, `proofTimestamp` (a Date, held in epoch milliseconds),
`custodyAddress` (nullable), and the `deletedAt` column used in the filter. -/
structure DbRow where
  username : List Nat
  fid : Nat
  proofTimestampMs : Nat
  custodyAddress : Option (List Nat)
  deletedAt : Option Nat
deriving DecidableEq, Repr

/-- The proof key of `getProofKey`: the hex-string key
`nameHex-fid-ownerHex-type` is in bijection with this tuple because none of
its four components can contain the separator. -/
abbrev ProofKey := List Nat × Nat × List Nat × Nat

/-- `getProofKey`: identifying fields only (name, fid, owner, type), no
timestamp. -/
def getProofKey (p : UserNameProof) : ProofKey :=
  (p.name, p.fid, p.owner, p.type)

/-- JS `Map.get` on an insertion-ordered association list. -/
def mapGet : List (ProofKey × UserNameProof) → ProofKey → Option UserNameProof
  | [], _ => none
  | (k, v) :: rest, key => if k = key then some v else mapGet rest key

/-- JS `Map.set` on an insertion-ordered association list: update in place
when the key exists, append otherwise. -/
def mapSet : List (ProofKey × UserNameProof) → ProofKey → UserNameProof →
    List (ProofKey × UserNameProof)
  | [], key, v => [(key, v)]
  | (k, w) :: rest, key, v =>
      if k = key then (key, v) :: rest else (k, w) :: mapSet rest key v

/-- The `dbProofsByKey` construction loop of
`reconcileUsernameProofsOfTypeForFid`: an entry is replaced only when
`existingProof.timestamp` is truthy (nonzero) AND the new proof is strictly
newer, mirroring
`if (!existingProof || (existingProof.timestamp && proof.timestamp > existingProof.timestamp))`. -/
def buildDbProofsByKey (dbProofs : List UserNameProof) :
    List (ProofKey × UserNameProof) :=
  dbProofs.foldl (fun m proof =>
    let key := getProofKey proof
    match mapGet m key with
    | none => mapSet m key proof
    | some existing =>
        if existing.timestamp ≠ 0 ∧ proof.timestamp > existing.timestamp then
          mapSet m key proof
        else m) []

/-- The hub-side time filter of `getProofsFromHub`: drop a proof when
`proof.timestamp * 1000 < startDate.getTime()` or
`proof.timestamp * 1000 > stopDate.getTime()` (both bounds inclusive). -/
def hubTimeFilter (startDateMs stopDateMs : Option Nat) (p : UserNameProof) : Bool :=
  (match startDateMs with
   | some sv => !(decide (p.timestamp * 1000 < sv))
   | none => true) &&
  (match stopDateMs with
   | some ev => !(decide (p.timestamp * 1000 > ev))
   | none => true)

/-- The pure part of `getProofsFromHub`: type filter, then the time filter
applied only when a start or stop date is present. -/
def getProofsFromHubPure (allProofs : List UserNameProof) (proofType : Option Nat)
    (startDateMs stopDateMs : Option Nat) : List UserNameProof :=
  let typed := match proofType with
    | some t => allProofs.filter (fun p => decide (p.type = t))
    | none => allProofs
  if startDateMs.isSome || stopDateMs.isSome then
    typed.filter (hubTimeFilter startDateMs stopDateMs)
  else typed

/-- The store-side row filter of `getProofsFromDb`: `fid = fid`,
`deletedAt is null`, `proofTimestamp > startDate`, `proofTimestamp < stopDate`
(both bounds strict, no pad). -/
def dbRowFilter (fid : Nat) (startDateMs stopDateMs : Option Nat) (r : DbRow) : Bool :=
  decide (r.fid = fid) && decide (r.deletedAt = none) &&
  (match startDateMs with
   | some sv => decide (r.proofTimestampMs > sv)
   | none => true) &&
  (match stopDateMs with
   | some ev => decide (r.proofTimestampMs < ev)
   | none => true)

/-- The rows selected by the `getProofsFromDb` query. -/
def dbSelectRows (rows : List DbRow) (fid : Nat)
    (startDateMs stopDateMs : Option Nat) : List DbRow :=
  rows.filter (dbRowFilter fid startDateMs stopDateMs)

/-- The row-to-proof mapping of `getProofsFromDb`: the `type` field is
hardcoded to `USERNAME_TYPE_FNAME`, `timestamp` is
`Math.floor(proofTimestamp.getTime() / 1000)`, the signature is empty, and a
null custody address becomes an empty owner. -/
def rowToProof (r : DbRow) : UserNameProof :=
  { name := r.username
    type := USERNAME_TYPE_FNAME
    fid := r.fid
    timestamp := r.proofTimestampMs / 1000
    signature := []
    owner := match r.custodyAddress with
      | some a => a
      | none => [] }

/-- `getProofsFromDb` with a successful query: select, map to proofs, then
filter by the requested proof type. -/
def getProofsFromDb (rows : List DbRow) (fid : Nat) (proofType : Option Nat)
    (startDateMs stopDateMs : Option Nat) : List UserNameProof :=
  let proofs := (dbSelectRows rows fid startDateMs stopDateMs).map rowToProof
  match proofType with
  | some t => proofs.filter (fun p => decide (p.type = t))
  | none => proofs

/-- Observable actions of one reconciliation call: the Hub RPC, the store
query, the two repair callbacks, and the invalid-range log line. -/
inductive TraceEvent where
  | hubQuery (fid : Nat)
  | dbQuery (fid : Nat) (proofType : Nat)
  | onHubProof (p : UserNameProof) (missingInDb : Bool)
  | onDbProof (p : UserNameProof) (missingInHub : Bool)
  | logInvalidRange
deriving DecidableEq, Repr

/-- `reconcileUsernameProofsOfTypeForFid`: the Hub fetch result and the raw
table contents are inputs; the output is the trace of observable actions in
order, paired with normal return (`ok`) or a thrown error (`err`).
`hasOnDbProof` records whether the optional `onDbProof` callback was passed. -/
def reconcileUsernameProofsOfTypeForFid (hubFetch : NResult (List UserNameProof))
    (dbFetch : NResult (List DbRow)) (fid proofType : Nat)
    (hasOnDbProof : Bool) (startDateMs stopDateMs : Option Nat) :
    List TraceEvent × NResult Unit :=
  match hubFetch with
  | .err => ([TraceEvent.hubQuery fid], .err)
  | .ok allProofs =>
    let hubProofs := getProofsFromHubPure allProofs (some proofType) startDateMs stopDateMs
    if hubProofs.isEmpty then ([TraceEvent.hubQuery fid], .ok ())
    else
      match dbFetch with
      | .err => ([TraceEvent.hubQuery fid, TraceEvent.dbQuery fid proofType], .err)
      | .ok rows =>
        let dbProofs := getProofsFromDb rows fid (some proofType) startDateMs stopDateMs
        let dbMap := buildDbProofsByKey dbProofs
        let hubKeys := hubProofs.map getProofKey
        let hubEvents := hubProofs.map (fun p =>
          TraceEvent.onHubProof p (mapGet dbMap (getProofKey p)).isNone)
        let dbEvents := if hasOnDbProof then
            dbMap.map (fun kv => TraceEvent.onDbProof kv.2 (decide (kv.1 ∉ hubKeys)))
          else []
        ([TraceEvent.hubQuery fid, TraceEvent.dbQuery fid proofType] ++ hubEvents ++ dbEvents,
         .ok ())

/-- Modelled from the spec: `fromFarcasterTime` lives outside the provided
source files, so the conversion is an abstract parameter `conv`; this wrapper
adds the JS truthiness guard `if (startTimestamp)` of
`reconcileUsernameProofsForFid` (an absent or zero bound is never converted). -/
def convertBound (conv : Nat → NResult Nat) (ts : Option Nat) : NResult (Option Nat) :=
  match ts with
  | none => .ok none
  | some t =>
      if t = 0 then .ok none
      else match conv t with
        | .err => .err
        | .ok ms => .ok (some ms)

/-- The default proof types of `reconcileUsernameProofsForFid`. -/
def defaultTypes : List Nat := [USERNAME_TYPE_FNAME, USERNAME_TYPE_ENS_L1]

/-- The per-type loop of `reconcileUsernameProofsForFid`: a thrown error from
one type aborts the loop and propagates. -/
def reconcileTypesLoop (hubFetch : NResult (List UserNameProof))
    (dbFetch : NResult (List DbRow)) (fid : Nat) (hasOnDbProof : Bool)
    (startDateMs stopDateMs : Option Nat) : List Nat → List TraceEvent × NResult Unit
  | [] => ([], .ok ())
  | t :: rest =>
    let r := reconcileUsernameProofsOfTypeForFid hubFetch dbFetch fid t hasOnDbProof
      startDateMs stopDateMs
    match r.2 with
    | .err => (r.1, .err)
    | .ok _ =>
      let r2 := reconcileTypesLoop hubFetch dbFetch fid hasOnDbProof startDateMs stopDateMs rest
      (r.1 ++ r2.1, r2.2)

/-- `reconcileUsernameProofsForFid`: convert the optional bounds; on a failed
conversion log the invalid range and return normally without reconciling any
type; otherwise run the per-type loop over the provided types or the default. -/
def reconcileUsernameProofsForFid (conv : Nat → NResult Nat)
    (hubFetch : NResult (List UserNameProof)) (dbFetch : NResult (List DbRow))
    (fid : Nat) (hasOnDbProof : Bool) (startTimestamp stopTimestamp : Option Nat)
    (types : Option (List Nat)) : List TraceEvent × NResult Unit :=
  match convertBound conv startTimestamp with
  | .err => ([TraceEvent.logInvalidRange], .ok ())
  | .ok startDateMs =>
    match convertBound conv stopTimestamp with
    | .err => ([TraceEvent.logInvalidRange], .ok ())
    | .ok stopDateMs =>
      reconcileTypesLoop hubFetch dbFetch fid hasOnDbProof startDateMs stopDateMs
        (types.getD defaultTypes)

/-- A task enqueued by `backfillFids` on the BullMQ queue. -/
inductive Task where
  | reconcile (fids : List Nat)
  | completionMarker (startedAt : Nat)
deriving DecidableEq, Repr

/-- `const batchSize = 10` in `backfillFids`. -/
def batchSize : Nat := 10

/-- The batch start offsets of `backfillFids`:
`Array.from({length: Math.ceil(maxFid / batchSize)}, (_, i) => i * batchSize).map((fid) => fid + 1)`. -/
def batchStarts (maxFid : Nat) : List Nat :=
  (List.range ((maxFid + batchSize - 1) / batchSize)).map (fun i => i * batchSize + 1)

/-- One enqueued batch:
`Array.from({length: batchSize}, (_, i) => start + i)` — always a full
`batchSize` consecutive fids, never clamped to `maxFid`. -/
def batchSubset (start : Nat) : List Nat :=
  (List.range batchSize).map (fun i => start + i)

/-- The `getInfo` fallback of `backfillFids`: a failed RPC throws, and a
missing or zero (falsy) `dbStats.numFidEvents` throws. -/
def resolveFromInfo (getInfo : NResult (Option Nat)) : NResult Nat :=
  match getInfo with
  | .err => .err
  | .ok none => .err
  | .ok (some n) => if n = 0 then .err else .ok n

/-- Resolution of the max fid in `backfillFids`: a truthy parsed `MAX_FID`
override wins, otherwise the Hub's `getInfo` is consulted. -/
def resolveMaxFid (maxFidEnv : Option Nat) (getInfo : NResult (Option Nat)) : NResult Nat :=
  match maxFidEnv with
  | some v => if v = 0 then resolveFromInfo getInfo else .ok v
  | none => resolveFromInfo getInfo

/-- `App.backfillFids`: `startedAt` is captured at the beginning; empty input
partitions via `batchStarts`/`batchSubset` and enqueues one reconcile task per
batch; non-empty input enqueues one reconcile task with the full set; both
branches then enqueue one completionMarker task carrying `startedAt`. -/
def backfillFids (fids : List Nat) (startedAt : Nat) (maxFidEnv : Option Nat)
    (getInfo : NResult (Option Nat)) : NResult (List Task) :=
  if fids.isEmpty then
    match resolveMaxFid maxFidEnv getInfo with
    | .err => .err
    | .ok maxFid =>
        .ok ((batchStarts maxFid).map (fun st => Task.reconcile (batchSubset st)) ++
             [Task.completionMarker startedAt])
  else
    .ok [Task.reconcile fids, Task.completionMarker startedAt]

/-- All fids carried by the reconcile tasks of a task list, in order. -/
def tasksFids : List Task → List Nat
  | [] => []
  | Task.reconcile fs :: rest => fs ++ tasksFids rest
  | Task.completionMarker _ :: rest => tasksFids rest

/-- Whether a task is a completionMarker task. -/
def isCompletionMarkerTask : Task → Bool
  | Task.completionMarker _ => true
  | Task.reconcile _ => false

/-- The four on-chain event shapes recognized by `App.onHubEvent`, plus an
unrecognized shape (which leaves the `body` object empty). -/
inductive OnChainKind where
  | idRegister
  | signerEvent
  | storageRent
  | signerMigrated
  | unknown
deriving DecidableEq, Repr

/-- The fields of a merged on-chain event that `App.onHubEvent` reads. -/
structure OnChainEventM where
  kind : OnChainKind
  chainId : Nat
  blockNumber : Nat
  logIndex : Nat
  fid : Nat
deriving DecidableEq, Repr

/-- A hub event as dispatched by `App.onHubEvent`: a merge-on-chain event, or
any other event (which the handler ignores). -/
inductive AppHubEvent where
  | mergeOnChain (e : OnChainEventM)
  | otherEvent
deriving DecidableEq, Repr

/-- Observable actions of `App.onHubEvent`. -/
inductive AppTrace where
  | insertOnchainEvent (e : OnChainEventM)
  | logInfoRecorded
  | logErrorInsertFailed
deriving DecidableEq, Repr

/-- `Object.keys(body).length > 0`: the body object is non-empty exactly when
one of the four event-shape predicates matched. -/
def bodyNonempty : OnChainKind → Bool
  | .unknown => false
  | _ => true

/-- `App.onHubEvent`: the insert into `onchain_events` is attempted only for
a recognized merge-on-chain event; its outcome is the input `insertResult`;
a failure is caught and logged inside the try/catch; the function returns
`false` on every path (the outer `NResult` is `ok` on every path: nothing
escapes the handler). -/
def onHubEvent (event : AppHubEvent) (insertResult : NResult Unit) :
    NResult (List AppTrace × Bool) :=
  match event with
  | .otherEvent => .ok ([], false)
  | .mergeOnChain oce =>
    if bodyNonempty oce.kind then
      match insertResult with
      | .ok _ => .ok ([AppTrace.insertOnchainEvent oce, AppTrace.logInfoRecorded], false)
      | .err => .ok ([AppTrace.logErrorInsertFailed], false)
    else .ok ([], false)

/-- Example `usernames` row with a surviving (non-deleted) proof, used to
exercise the zero-hub-proofs path. -/
def c2row : DbRow := ⟨[3], 1, 1000, some [4], none⟩

/-- Example row whose `proofTimestamp` sits exactly at a query bound. -/
def c3row : DbRow := ⟨[1], 1, 5000, some [2], none⟩

/-- Example Hub proof at the same instant as `c3row`. -/
def c3hubP : UserNameProof := ⟨[1], 1, [2], 1, 5, []⟩

/-- Example row pair sharing an identity key: `c4rowA` has proof timestamp
epoch 0, `c4rowB` is five seconds later. -/
def c4rowA : DbRow := ⟨[5], 1, 0, some [6], none⟩

/-- Later row of the `c4rowA`/`c4rowB` identity-key pair. -/
def c4rowB : DbRow := ⟨[5], 1, 5000, some [6], none⟩

/-- Example Hub proof with a different name than the `c4` rows, making the
Hub result non-empty without matching their key. -/
def c4hub : UserNameProof := ⟨[9], 1, [6], 1, 7, []⟩

/-- Example merged on-chain event of a recognized shape. -/
def exOce : OnChainEventM := ⟨OnChainKind.idRegister, 10, 1, 0, 5⟩

/-- Claim C1, counterexample: with an empty fid list and max fid 25, the
enqueued batches are `[1..10]`, `[11..20]`, `[21..30]` — the third batch is a
full ten-fid batch reaching 30, not `[21..25]`, so an enqueued batch is not a
subset of `[1, maxFid]` (30 > 25). -/
theorem backfill_maxfid25_last_batch_overruns :
    backfillFids [] 0 (some 25) (NResult.ok none) =
      NResult.ok [Task.reconcile [1, 2, 3, 4, 5, 6, 7, 8, 9, 10],
        Task.reconcile [11, 12, 13, 14, 15, 16, 17, 18, 19, 20],
        Task.reconcile [21, 22, 23, 24, 25, 26, 27, 28, 29, 30],
        Task.completionMarker 0] ∧
    [21, 22, 23, 24, 25, 26, 27, 28, 29, 30] ≠ [21, 22, 23, 24, 25] ∧
    30 ∈ [21, 22, 23, 24, 25, 26, 27, 28, 29, 30] ∧ ¬(30 ≤ 25) := by
  refine ⟨by decide, by decide, by decide, by decide⟩

/-- Claim C5: when the Hub fetch fails, `reconcileUsernameProofsOfTypeForFid`
surfaces the error to its caller (throws), and its trace holds only the Hub
query — no store query, no `onHubProof` call, no `onDbProof` call. -/
theorem hub_fetch_error_no_partial_reporting (dbFetch : NResult (List DbRow))
    (fid proofType : Nat) (hasOnDbProof : Bool) (startDateMs stopDateMs : Option Nat) :
    reconcileUsernameProofsOfTypeForFid NResult.err dbFetch fid proofType hasOnDbProof
        startDateMs stopDateMs = ([TraceEvent.hubQuery fid], NResult.err) := rfl

/-- Claim C6: when the provided start bound (or, the start bound converting,
the stop bound) fails Farcaster-time conversion,
`reconcileUsernameProofsForFid` logs the invalid range and returns normally
(`ok`, nothing thrown) with no reconciliation performed for any proof type. -/
theorem invalid_range_logged_and_skipped (conv : Nat → NResult Nat)
    (hubFetch : NResult (List UserNameProof)) (dbFetch : NResult (List DbRow))
    (fid : Nat) (hasOnDbProof : Bool) (startTimestamp stopTimestamp : Option Nat)
    (types : Option (List Nat))
    (h : convertBound conv startTimestamp = NResult.err ∨
         (∃ sd, convertBound conv startTimestamp = NResult.ok sd) ∧
           convertBound conv stopTimestamp = NResult.err) :
    reconcileUsernameProofsForFid conv hubFetch dbFetch fid hasOnDbProof
        startTimestamp stopTimestamp types =
      ([TraceEvent.logInvalidRange], NResult.ok ()) := by
  rcases h with h1 | ⟨⟨sd, h2⟩, h3⟩
  · simp [reconcileUsernameProofsForFid, h1]
  · simp [reconcileUsernameProofsForFid, h2, h3]

/-- Witness for C6 at a conversion that fails on the provided start bound. -/
theorem invalid_range_logged_and_skipped_witness :
    convertBound (fun _ => NResult.err) (some 5) = NResult.err ∧
    reconcileUsernameProofsForFid (fun _ => NResult.err) (NResult.ok [])
        (NResult.ok []) 1 true (some 5) none none =
      ([TraceEvent.logInvalidRange], NResult.ok ()) :=
  ⟨rfl, invalid_range_logged_and_skipped (fun _ => NResult.err) (NResult.ok [])
    (NResult.ok []) 1 true (some 5) none none (Or.inl rfl)⟩

/-- Claim C7: for a non-empty fid list, `backfillFids` enqueues exactly one
reconcile task holding that full set followed by the completion marker; the
result does not depend on the `getInfo` input (the Hub is not queried for a
max fid — here the theorem even holds when `getInfo` would fail). -/
theorem nonempty_fids_single_task (fids : List Nat) (startedAt : Nat)
    (maxFidEnv : Option Nat) (getInfo : NResult (Option Nat)) (h : fids ≠ []) :
    backfillFids fids startedAt maxFidEnv getInfo =
      NResult.ok [Task.reconcile fids, Task.completionMarker startedAt] := by
  cases fids with
  | nil => exact absurd rfl h
  | cons a t => rfl

/-- Witness for C7 on the fid list `[3, 5]` with a failing `getInfo`. -/
theorem nonempty_fids_single_task_witness :
    ([3, 5] : List Nat) ≠ [] ∧
    backfillFids [3, 5] 0 none NResult.err =
      NResult.ok [Task.reconcile [3, 5], Task.completionMarker 0] :=
  ⟨by decide, nonempty_fids_single_task [3, 5] 0 none NResult.err (by decide)⟩

/-- Claim C10: `App.onHubEvent` returns `false` for every input event, and an
on-chain-event insert failure is caught inside the handler and logged — the
handler still returns normally with `false`. -/
theorem onhubevent_returns_false_catches_insert_failure :
    (∀ (event : AppHubEvent) (insertResult : NResult Unit),
       ∃ tr, onHubEvent event insertResult = NResult.ok (tr, false)) ∧
    (∀ oce : OnChainEventM, bodyNonempty oce.kind = true →
       onHubEvent (AppHubEvent.mergeOnChain oce) NResult.err =
         NResult.ok ([AppTrace.logErrorInsertFailed], false)) := by
  constructor
  · intro event insertResult
    cases event with
    | otherEvent => exact ⟨[], rfl⟩
    | mergeOnChain oce =>
      by_cases hb : bodyNonempty oce.kind = true
      · cases insertResult with
        | ok v =>
          exact ⟨[AppTrace.insertOnchainEvent oce, AppTrace.logInfoRecorded],
            by simp [onHubEvent, hb]⟩
        | err => exact ⟨[AppTrace.logErrorInsertFailed], by simp [onHubEvent, hb]⟩
      · exact ⟨[], by simp [onHubEvent, hb]⟩
  · intro oce hb
    simp [onHubEvent, hb]

/-- Witness for C10 at a recognized on-chain event whose insert fails. -/
theorem onhubevent_returns_false_catches_insert_failure_witness :
    bodyNonempty exOce.kind = true ∧
    onHubEvent (AppHubEvent.mergeOnChain exOce) NResult.err =
      NResult.ok ([AppTrace.logErrorInsertFailed], false) :=
  ⟨rfl, onhubevent_returns_false_catches_insert_failure.2 exOce rfl⟩

/-- Claim C2, counterexample: when the Hub returns zero proofs of the
requested type, `reconcileUsernameProofsOfTypeForFid` returns right after the
Hub query — the store is never queried and no `onDbProof` call reports the
surviving store row `c2row`, although that row maps to a non-deleted proof. -/
theorem zero_hub_proofs_no_db_reporting :
    reconcileUsernameProofsOfTypeForFid (NResult.ok []) (NResult.ok [c2row]) 1
        USERNAME_TYPE_FNAME true none none = ([TraceEvent.hubQuery 1], NResult.ok ()) ∧
    getProofsFromDb [c2row] 1 (some USERNAME_TYPE_FNAME) none none ≠ [] := by
  refine ⟨by decide, by decide⟩

/-- Claim C2, amended: when the Hub returns at least one proof of the type
and the `onDbProof` callback is provided, every surviving store-side entry of
the latest-wins map whose key is absent from the Hub result set is reported
via `onDbProof` with `missingInHub = true`; when the Hub returns zero proofs
of the type, the call returns early and performs no store-side reporting. -/
theorem surviving_db_keys_reported_missing_in_hub
    (allProofs : List UserNameProof) (rows : List DbRow) (fid proofType : Nat)
    (startDateMs stopDateMs : Option Nat) (k : ProofKey) (p : UserNameProof)
    (hne : getProofsFromHubPure allProofs (some proofType) startDateMs stopDateMs ≠ [])
    (hmem : (k, p) ∈ buildDbProofsByKey
      (getProofsFromDb rows fid (some proofType) startDateMs stopDateMs))
    (habs : k ∉ (getProofsFromHubPure allProofs (some proofType) startDateMs
      stopDateMs).map getProofKey) :
    TraceEvent.onDbProof p true ∈
      (reconcileUsernameProofsOfTypeForFid (NResult.ok allProofs) (NResult.ok rows)
        fid proofType true startDateMs stopDateMs).1 := by
  have hie : (getProofsFromHubPure allProofs (some proofType) startDateMs
      stopDateMs).isEmpty = false := by
    simpa [List.isEmpty_eq_false] using hne
  simp only [reconcileUsernameProofsOfTypeForFid, hie, Bool.false_eq_true, if_false,
    if_true]
  refine List.mem_append.mpr (Or.inr ?_)
  refine List.mem_map.mpr ⟨(k, p), hmem, ?_⟩
  simp only [decide_eq_true habs]

/-- Witness for C2 at one Hub proof and one surviving store row of a
different identity key. -/
theorem surviving_db_keys_reported_missing_in_hub_witness :
    getProofsFromHubPure [c4hub] (some USERNAME_TYPE_FNAME) none none ≠ [] ∧
    (getProofKey (rowToProof c2row), rowToProof c2row) ∈
      buildDbProofsByKey (getProofsFromDb [c2row] 1 (some USERNAME_TYPE_FNAME) none none) ∧
    getProofKey (rowToProof c2row) ∉
      (getProofsFromHubPure [c4hub] (some USERNAME_TYPE_FNAME) none none).map getProofKey ∧
    TraceEvent.onDbProof (rowToProof c2row) true ∈
      (reconcileUsernameProofsOfTypeForFid (NResult.ok [c4hub]) (NResult.ok [c2row]) 1
        USERNAME_TYPE_FNAME true none none).1 :=
  ⟨by decide, by decide, by decide,
   surviving_db_keys_reported_missing_in_hub [c4hub] [c2row] 1 USERNAME_TYPE_FNAME
     none none (getProofKey (rowToProof c2row)) (rowToProof c2row) (by decide)
     (by decide) (by decide)⟩

/-- Claim C3, counterexample: a store row whose `proofTimestamp` sits exactly
at the start bound is excluded by the store-side query (strict `>` with no
pad), whereas a Hub proof at the very same instant passes the Hub-side filter
(inclusive) — so the row exactly at a bound IS excluded and the two windows do
not match. -/
theorem db_bounds_strict_no_pad :
    dbSelectRows [c3row] 1 (some 5000) none = [] ∧
    c3row.proofTimestampMs = 5000 ∧ c3row.fid = 1 ∧ c3row.deletedAt = none ∧
    getProofsFromHubPure [c3hubP] (some 1) (some 5000) none = [c3hubP] ∧
    c3hubP.timestamp * 1000 = 5000 := by
  refine ⟨by decide, by decide, by decide, by decide, by decide, by decide⟩

/-- Claim C3, amended: the store-side query filters `proofTimestamp` with
strict bounds and no pad (`proofTimestamp > startDate`,
`proofTimestamp < stopDate`), so rows exactly at a bound are excluded; the
Hub-side window, by contrast, is inclusive on both bounds
(`startDate ≤ timestamp·1000 ≤ stopDate`). -/
theorem db_strict_hub_inclusive_bounds (rows : List DbRow) (fid s e : Nat) (r : DbRow) :
    (r ∈ dbSelectRows rows fid (some s) (some e) ↔
       r ∈ rows ∧ r.fid = fid ∧ r.deletedAt = none ∧
         s < r.proofTimestampMs ∧ r.proofTimestampMs < e) ∧
    ∀ (proofs : List UserNameProof) (ty : Nat) (p : UserNameProof),
      p ∈ getProofsFromHubPure proofs (some ty) (some s) (some e) ↔
        p ∈ proofs ∧ p.type = ty ∧ s ≤ p.timestamp * 1000 ∧ p.timestamp * 1000 ≤ e := by
  constructor
  · simp only [dbSelectRows, dbRowFilter, List.mem_filter, Bool.and_eq_true,
      decide_eq_true_iff]
    constructor
    · rintro ⟨hr, ⟨⟨hf, hd⟩, hs⟩, he⟩
      exact ⟨hr, hf, hd, hs, he⟩
    · rintro ⟨hr, hf, hd, hs, he⟩
      exact ⟨hr, ⟨⟨hf, hd⟩, hs⟩, he⟩
  · intro proofs ty p
    simp only [getProofsFromHubPure, Option.isSome_some, Bool.or_self, if_true,
      hubTimeFilter, List.mem_filter, Bool.and_eq_true, Bool.not_eq_true',
      decide_eq_false_iff_not, decide_eq_true_iff, Nat.not_lt, gt_iff_lt]
    constructor
    · rintro ⟨⟨hp, ht⟩, hs, he⟩
      exact ⟨hp, ht, hs, he⟩
    · rintro ⟨hp, ht, hs, he⟩
      exact ⟨⟨hp, ht⟩, hs, he⟩

/-- Witness for C3 applying both window characterizations at a row and a
proof strictly inside the bounds. -/
theorem db_strict_hub_inclusive_bounds_witness :
    c3row ∈ dbSelectRows [c3row] 1 (some 4000) (some 6000) ∧
    c3hubP ∈ getProofsFromHubPure [c3hubP] (some 1) (some 4000) (some 6000) :=
  ⟨(db_strict_hub_inclusive_bounds [c3row] 1 4000 6000 c3row).1.mpr
     ⟨by decide, by decide, by decide, by decide, by decide⟩,
   ((db_strict_hub_inclusive_bounds [c3row] 1 4000 6000 c3row).2 [c3hubP] 1 c3hubP).mpr
     ⟨by decide, by decide, by decide, by decide⟩⟩

/-- Claim C4, counterexample: two store rows share the identity key
`(name, owner, fid, type)` with timestamps 0 and 5; because the replacement
guard requires the existing entry's timestamp to be truthy (nonzero), the
timestamp-0 row is retained when it comes first, and the reconciliation trace
reports THAT row via `onDbProof` — not the later row. -/
theorem tiebreak_fails_at_zero_timestamp :
    getProofKey (rowToProof c4rowA) = getProofKey (rowToProof c4rowB) ∧
    rowToProof c4rowA ≠ rowToProof c4rowB ∧
    (rowToProof c4rowA).timestamp < (rowToProof c4rowB).timestamp ∧
    buildDbProofsByKey [rowToProof c4rowA, rowToProof c4rowB] =
      [(getProofKey (rowToProof c4rowA), rowToProof c4rowA)] ∧
    TraceEvent.onDbProof (rowToProof c4rowA) true ∈
      (reconcileUsernameProofsOfTypeForFid (NResult.ok [c4hub])
        (NResult.ok [c4rowA, c4rowB]) 1 USERNAME_TYPE_FNAME true none none).1 ∧
    TraceEvent.onDbProof (rowToProof c4rowB) true ∉
      (reconcileUsernameProofsOfTypeForFid (NResult.ok [c4hub])
        (NResult.ok [c4rowA, c4rowB]) 1 USERNAME_TYPE_FNAME true none none).1 := by
  refine ⟨by decide, by decide, by decide, by decide, by decide, by decide⟩

/-- Claim C4, amended: given two store proofs with the same identity key and
timestamps `t1 < t2` where `t1 ≠ 0`, the latest-wins map keeps only the `t2`
proof regardless of the order the two rows arrive in; the `t1 = 0` edge is the
only exception (see the counterexample). -/
theorem latest_wins_tiebreak_nonzero (p1 p2 : UserNameProof)
    (hk : getProofKey p1 = getProofKey p2) (hlt : p1.timestamp < p2.timestamp)
    (h0 : p1.timestamp ≠ 0) :
    buildDbProofsByKey [p1, p2] = [(getProofKey p2, p2)] ∧
    buildDbProofsByKey [p2, p1] = [(getProofKey p2, p2)] := by
  constructor
  · simp only [buildDbProofsByKey, List.foldl, mapGet, mapSet, hk, if_true]
    rw [if_pos ⟨h0, hlt⟩]
  · simp only [buildDbProofsByKey, List.foldl, mapGet, mapSet, hk, if_true]
    rw [if_neg (by omega)]

/-- Witness for C4 at two proofs with timestamps 3 and 9 sharing a key. -/
theorem latest_wins_tiebreak_nonzero_witness :
    getProofKey (⟨[1], 1, [2], 1, 3, []⟩ : UserNameProof) =
      getProofKey (⟨[1], 1, [2], 1, 9, []⟩ : UserNameProof) ∧
    (3 : Nat) < 9 ∧ (3 : Nat) ≠ 0 ∧
    buildDbProofsByKey [⟨[1], 1, [2], 1, 3, []⟩, ⟨[1], 1, [2], 1, 9, []⟩] =
      [(getProofKey (⟨[1], 1, [2], 1, 9, []⟩ : UserNameProof), ⟨[1], 1, [2], 1, 9, []⟩)] ∧
    buildDbProofsByKey [⟨[1], 1, [2], 1, 9, []⟩, ⟨[1], 1, [2], 1, 3, []⟩] =
      [(getProofKey (⟨[1], 1, [2], 1, 9, []⟩ : UserNameProof), ⟨[1], 1, [2], 1, 9, []⟩)] := by
  have h := latest_wins_tiebreak_nonzero ⟨[1], 1, [2], 1, 3, []⟩ ⟨[1], 1, [2], 1, 9, []⟩
    (by decide) (by decide) (by decide)
  exact ⟨by decide, by decide, by decide, h.1, h.2⟩

/-- Every proof built by the store-side row mapping carries the hardcoded
fname type. -/
lemma rowToProof_type_eq (r : DbRow) : (rowToProof r).type = USERNAME_TYPE_FNAME := rfl

/-- The store-side query filtered to the ENS type always comes back empty,
because every mapped proof carries the hardcoded fname type. -/
lemma getProofsFromDb_ens_nil (rows : List DbRow) (fid : Nat)
    (startDateMs stopDateMs : Option Nat) :
    getProofsFromDb rows fid (some USERNAME_TYPE_ENS_L1) startDateMs stopDateMs = [] := by
  refine List.filter_eq_nil_iff.mpr ?_
  intro p hp
  rcases List.mem_map.1 hp with ⟨r, _, rfl⟩
  simp [rowToProof, USERNAME_TYPE_FNAME, USERNAME_TYPE_ENS_L1]

/-- Claim C8: `getProofsFromDb` sets every proof's type to
`USERNAME_TYPE_FNAME`; consequently the store-side result for the ENS type is
always empty, and in an ENS-type reconciliation every Hub proof is reported
with `missingInDb = true`, even when a matching row exists in the store. -/
theorem db_proofs_always_fname_ens_always_missing :
    (∀ (rows : List DbRow) (fid : Nat) (startDateMs stopDateMs : Option Nat)
       (p : UserNameProof), p ∈ getProofsFromDb rows fid none startDateMs stopDateMs →
         p.type = USERNAME_TYPE_FNAME) ∧
    (∀ (rows : List DbRow) (fid : Nat) (startDateMs stopDateMs : Option Nat),
       getProofsFromDb rows fid (some USERNAME_TYPE_ENS_L1) startDateMs stopDateMs = []) ∧
    (∀ (allProofs : List UserNameProof) (rows : List DbRow) (fid : Nat)
       (hasOnDbProof : Bool) (startDateMs stopDateMs : Option Nat)
       (p : UserNameProof) (b : Bool),
       TraceEvent.onHubProof p b ∈
         (reconcileUsernameProofsOfTypeForFid (NResult.ok allProofs) (NResult.ok rows)
           fid USERNAME_TYPE_ENS_L1 hasOnDbProof startDateMs stopDateMs).1 →
       b = true) := by
  refine ⟨?_, fun rows fid s e => getProofsFromDb_ens_nil rows fid s e, ?_⟩
  · intro rows fid s e p hp
    rcases List.mem_map.1 hp with ⟨r, _, rfl⟩
    rfl
  · intro allProofs rows fid hasOnDbProof s e p b hmem
    by_cases hie : (getProofsFromHubPure allProofs (some USERNAME_TYPE_ENS_L1) s e).isEmpty
      = true
    · simp [reconcileUsernameProofsOfTypeForFid, hie] at hmem
    · rw [Bool.not_eq_true] at hie
      cases hasOnDbProof
      all_goals
        simp only [reconcileUsernameProofsOfTypeForFid, hie, Bool.false_eq_true, if_false,
          if_true, getProofsFromDb_ens_nil, buildDbProofsByKey, List.foldl, mapGet,
          Option.isNone_none, List.map_nil, List.append_nil, List.mem_append,
          List.mem_cons, List.mem_map, List.not_mem_nil, or_false,
          TraceEvent.onHubProof.injEq, reduceCtorEq, false_or] at hmem
      all_goals
        rcases hmem with ⟨q, hq1, hq2, hq3⟩
        exact hq3.symm

/-- Witness for C8: an ENS Hub proof whose matching row sits in the store is
still reported `missingInDb = true`. -/
theorem db_proofs_always_fname_ens_always_missing_witness :
    rowToProof c2row ∈ getProofsFromDb [c2row] 1 none none none ∧
    (rowToProof c2row).type = USERNAME_TYPE_FNAME ∧
    getProofsFromDb [⟨[7], 1, 9000, some [8], none⟩] 1 (some USERNAME_TYPE_ENS_L1)
      none none = [] ∧
    TraceEvent.onHubProof ⟨[7], 1, [8], USERNAME_TYPE_ENS_L1, 9, []⟩ true ∈
      (reconcileUsernameProofsOfTypeForFid
        (NResult.ok [⟨[7], 1, [8], USERNAME_TYPE_ENS_L1, 9, []⟩])
        (NResult.ok [⟨[7], 1, 9000, some [8], none⟩]) 1 USERNAME_TYPE_ENS_L1 true
        none none).1 ∧
    (true : Bool) = true :=
  ⟨by decide,
   db_proofs_always_fname_ens_always_missing.1 [c2row] 1 none none (rowToProof c2row)
     (by decide),
   db_proofs_always_fname_ens_always_missing.2.1 [⟨[7], 1, 9000, some [8], none⟩] 1
     none none,
   by decide,
   db_proofs_always_fname_ens_always_missing.2.2
     [⟨[7], 1, [8], USERNAME_TYPE_ENS_L1, 9, []⟩] [⟨[7], 1, 9000, some [8], none⟩] 1
     true none none ⟨[7], 1, [8], USERNAME_TYPE_ENS_L1, 9, []⟩ true (by decide)⟩

/-- Claim C9: whenever `backfillFids` completes without error — on the empty
and the non-empty branch alike — the enqueued task list ends with exactly one
completionMarker task carrying the `startedAt` captured at the start of the
call, preceded only by reconcile tasks. -/
theorem completion_marker_exactly_one_and_last (fids : List Nat) (startedAt : Nat)
    (maxFidEnv : Option Nat) (getInfo : NResult (Option Nat)) (tasks : List Task)
    (h : backfillFids fids startedAt maxFidEnv getInfo = NResult.ok tasks) :
    ∃ front, tasks = front ++ [Task.completionMarker startedAt] ∧
      front.all (fun t => !(isCompletionMarkerTask t)) = true ∧
      tasks.filter isCompletionMarkerTask = [Task.completionMarker startedAt] := by
  cases fids with
  | cons a t =>
    simp only [backfillFids, List.isEmpty_cons, Bool.false_eq_true, if_false,
      NResult.ok.injEq] at h
    subst h
    exact ⟨[Task.reconcile (a :: t)], rfl, rfl, rfl⟩
  | nil =>
    simp only [backfillFids, List.isEmpty_nil, if_true] at h
    cases hr : resolveMaxFid maxFidEnv getInfo with
    | err => rw [hr] at h; exact absurd h (by simp)
    | ok m =>
      rw [hr] at h
      simp only [NResult.ok.injEq] at h
      subst h
      refine ⟨(batchStarts m).map (fun st => Task.reconcile (batchSubset st)), rfl, ?_, ?_⟩
      · refine List.all_eq_true.mpr ?_
        intro t ht
        rcases List.mem_map.1 ht with ⟨st, _, rfl⟩
        rfl
      · rw [List.filter_append]
        have h1 : ((batchStarts m).map
            (fun st => Task.reconcile (batchSubset st))).filter isCompletionMarkerTask
              = [] := by
          refine List.filter_eq_nil_iff.mpr ?_
          intro t ht
          rcases List.mem_map.1 ht with ⟨st, _, rfl⟩
          simp [isCompletionMarkerTask]
        rw [h1]
        rfl

/-- Witness for C9 on a non-empty fid list. -/
theorem completion_marker_exactly_one_and_last_witness :
    backfillFids [7] 0 none (NResult.ok none) =
      NResult.ok [Task.reconcile [7], Task.completionMarker 0] ∧
    ∃ front, [Task.reconcile [7], Task.completionMarker 0] =
        front ++ [Task.completionMarker 0] ∧
      front.all (fun t => !(isCompletionMarkerTask t)) = true ∧
      List.filter isCompletionMarkerTask [Task.reconcile [7], Task.completionMarker 0] =
        [Task.completionMarker 0] :=
  ⟨rfl, completion_marker_exactly_one_and_last [7] 0 none (NResult.ok none)
    [Task.reconcile [7], Task.completionMarker 0] rfl⟩

/-- The fids enqueued by the empty-fids branch are exactly the concatenation
of the full-size batches. -/
lemma tasksFids_batches (l : List Nat) (startedAt : Nat) :
    tasksFids ((l.map (fun st => Task.reconcile (batchSubset st))) ++
        [Task.completionMarker startedAt]) = l.flatMap batchSubset := by
  induction l with
  | nil => rfl
  | cons a rest ih => simp only [List.map_cons, List.cons_append, tasksFids,
      List.flatMap_cons, List.append_eq, ih]

/-- Claim C1, amended: with an empty fid list and resolved max fid `m`, the
enqueued tasks are the reconcile batches `[10·i+1 .. 10·i+10]` for
`i < ⌈m/10⌉` in order — every batch a full ten consecutive fids, so the last
batch may overrun `maxFid` by up to nine — followed by exactly one
completion-marker task; every enqueued fid lies in `[1, 10·⌈m/10⌉]` (and not
necessarily in `[1, m]`). -/
theorem backfill_empty_fids_batches_amended (startedAt : Nat) (maxFidEnv : Option Nat)
    (getInfo : NResult (Option Nat)) (m : Nat)
    (h : resolveMaxFid maxFidEnv getInfo = NResult.ok m) :
    backfillFids [] startedAt maxFidEnv getInfo =
      NResult.ok ((batchStarts m).map (fun st => Task.reconcile (batchSubset st)) ++
        [Task.completionMarker startedAt]) ∧
    ∀ f ∈ tasksFids ((batchStarts m).map (fun st => Task.reconcile (batchSubset st)) ++
        [Task.completionMarker startedAt]),
      1 ≤ f ∧ f ≤ batchSize * ((m + batchSize - 1) / batchSize) := by
  constructor
  · simp [backfillFids, h]
  · intro f hf
    rw [tasksFids_batches] at hf
    rcases List.mem_flatMap.1 hf with ⟨st, hst, hfst⟩
    rcases List.mem_map.1 hst with ⟨i, hi, rfl⟩
    rcases List.mem_map.1 hfst with ⟨j, hj, rfl⟩
    rw [List.mem_range] at hi hj
    simp only [batchStarts, batchSize] at hi hj ⊢
    omega

/-- Witness for C1's amended statement at max fid 25: batches start at 1, 11,
21 and the largest enqueued fid, 30, is bounded by `10·⌈25/10⌉ = 30`. -/
theorem backfill_empty_fids_batches_amended_witness :
    resolveMaxFid (some 25) (NResult.ok none) = NResult.ok 25 ∧
    backfillFids [] 0 (some 25) (NResult.ok none) =
      NResult.ok ((batchStarts 25).map (fun st => Task.reconcile (batchSubset st)) ++
        [Task.completionMarker 0]) ∧
    30 ∈ tasksFids ((batchStarts 25).map (fun st => Task.reconcile (batchSubset st)) ++
        [Task.completionMarker 0]) ∧
    1 ≤ 30 ∧ 30 ≤ batchSize * ((25 + batchSize - 1) / batchSize) :=
  ⟨by decide,
   (backfill_empty_fids_batches_amended 0 (some 25) (NResult.ok none) 25 (by decide)).1,
   by decide,
   (backfill_empty_fids_batches_amended 0 (some 25) (NResult.ok none) 25 (by decide)).2
     30 (by decide)⟩

end Shuttle
